import Mathlib

/-- Term `k` of the Leibniz series, `((-1) ** k) / (2 * k + 1)` as computed by
`compute_segment` in `pi.py` (line 16), in exact rational arithmetic. -/
def leibnizTerm (k : ℤ) : ℚ := (-1 : ℚ) ^ k / (2 * (k : ℚ) + 1)

/-- The list of integers produced by Python `range(s, e)`: `s, s+1, ..., e-1`
(empty when `e ≤ s`). -/
def intRange (s e : ℤ) : List ℤ := (List.range (e - s).toNat).map fun (j : ℕ) => s + (j : ℤ)

/-- `compute_segment` (pi.py lines 12-17): running sum, in ascending `k`, of the
Leibniz terms for `k` in `range(start, end)`. Exact rational arithmetic stands in
for float64 accumulation. -/
def compute_segment (start stop : ℤ) : ℚ :=
  (intRange start stop).foldl (fun total k => total + leibnizTerm k) 0

/-- The chunk size `chunk = iterations // threads` of the even-split policy
(pi.py line 22 in `run_gil_threads`, line 143 in `distribute_across_hosts`).
Python `//` on ints is floor division, i.e. `Int.fdiv`. -/
def evenChunk (iterations threads : ℤ) : ℤ := Int.fdiv iterations threads

/-- The even-split segment list of `run_gil_threads` (pi.py lines 23-26): segment
`i` is `(i * chunk, (i + 1) * chunk)` except that the last one ends at
`iterations`. -/
def evenSplitSegments (iterations threads : ℤ) : List (ℤ × ℤ) :=
  (List.range threads.toNat).map fun (i : ℕ) =>
    ((i : ℤ) * evenChunk iterations threads,
      if (i : ℤ) < threads - 1 then ((i : ℤ) + 1) * evenChunk iterations threads
      else iterations)

/-- The ceiling-chunk size `chunk = max(1, iterations // workers)` of
`run_producer_consumer_threads` (pi.py line 53), `run_producer_consumer_processes`
(line 92) and `run_pool` (line 121). -/
def ceilChunk (iterations workers : ℤ) : ℤ := max 1 (Int.fdiv iterations workers)

/-- The ceiling-chunk segment count `(iterations + chunk - 1) // chunk`
(pi.py lines 56, 95, 124). -/
def ceilCount (iterations workers : ℤ) : ℤ :=
  Int.fdiv (iterations + ceilChunk iterations workers - 1) (ceilChunk iterations workers)

/-- The ceiling-chunk segment list (pi.py lines 54-57, 93-96, 122-125): segment `i`
is `(i * chunk, min((i + 1) * chunk, iterations))`. -/
def ceilChunkSegments (iterations workers : ℤ) : List (ℤ × ℤ) :=
  (List.range (ceilCount iterations workers).toNat).map fun (i : ℕ) =>
    ((i : ℤ) * ceilChunk iterations workers,
      min (((i : ℤ) + 1) * ceilChunk iterations workers) iterations)

/-- Abnormal terminations observable in `pi.py`: Python `ZeroDivisionError`
(worker count 0 in an integer division), `ValueError` (`multiprocessing.Pool` given
a negative size), `TypeError` (arithmetic on a missing `--iterations`, i.e. `None`),
and the two `sys.exit(1)` paths of `distribute_across_hosts` (non-zero remote exit
status, unparsable remote output). -/
inductive PiError where
  | zeroDivision
  | valueError
  | noneType
  | remoteExit
  | remoteParse
deriving DecidableEq, Repr

/-- Sum of the unscaled partial results of a segment list: one `compute_segment`
per segment. Every local backend collects exactly this multiset of partials; in
exact arithmetic the collection order is irrelevant, so the backends below return
this sum directly. -/
def segSum (segs : List (ℤ × ℤ)) : ℚ := (segs.map fun s => compute_segment s.1 s.2).sum

/-- `run_gil_threads` (pi.py lines 20-39). With `threads = 0` Python raises
`ZeroDivisionError` at `chunk = iterations // threads` before any worker starts;
with `threads < 0` both the segment list and the results list are empty and the
function returns `4 * sum([]) = 0.0`. Otherwise each worker writes
`compute_segment` of its segment into its own pre-indexed slot and the function
returns `4 * sum(results)`; thread interleaving cannot affect the value because
each slot has exactly one writer. -/
def run_gil_threads (iterations threads : ℤ) : Except PiError ℚ :=
  if threads = 0 then .error .zeroDivision
  else .ok (4 * segSum (evenSplitSegments iterations threads))

/-- `run_producer_consumer_threads` (pi.py lines 51-78): consumers pull
ceiling-chunk segments from a task queue and push one `compute_segment` result
each; the producer collects exactly `len(segments)` results and returns 4 times
their sum. Queue ordering is irrelevant in exact arithmetic. `threads = 0` raises
`ZeroDivisionError` at the chunk computation; a negative thread count deadlocks in
Python (no consumers ever run), which a value-level model cannot express, so
theorems about this function assume `1 ≤ threads`. -/
def run_producer_consumer_threads (iterations threads : ℤ) : Except PiError ℚ :=
  if threads = 0 then .error .zeroDivision
  else .ok (4 * segSum (ceilChunkSegments iterations threads))

/-- `run_producer_consumer_processes` (pi.py lines 90-116): identical protocol to
the threaded variant with process workers, which are additionally joined before
returning. Same modelling caveats as `run_producer_consumer_threads`. -/
def run_producer_consumer_processes (iterations processes : ℤ) : Except PiError ℚ :=
  if processes = 0 then .error .zeroDivision
  else .ok (4 * segSum (ceilChunkSegments iterations processes))

/-- `run_pool` (pi.py lines 119-128): `pool.starmap(compute_segment, segments)`
scatters all ceiling-chunk segments and gathers the partials in order.
`pool_size = 0` raises `ZeroDivisionError` at the chunk computation; a negative
size reaches `multiprocessing.Pool`, which raises `ValueError`. -/
def run_pool (iterations poolSize : ℤ) : Except PiError ℚ :=
  if poolSize = 0 then .error .zeroDivision
  else if poolSize < 0 then .error .valueError
  else .ok (4 * segSum (ceilChunkSegments iterations poolSize))

/-- `run_local_segment` (pi.py lines 130-134): the value printed as `π ≈ ...` in
single-segment worker mode, already scaled by 4. -/
def run_local_segment (start stop : ℤ) : ℚ := 4 * compute_segment start stop

/-- Outcome of one remote `ssh` invocation, as classified by
`distribute_across_hosts` (pi.py lines 165-177): non-zero exit status
(`CalledProcessError`), output whose first line does not parse as `π ≈ <float>`,
or a successfully parsed partial value. -/
inductive RemoteResult where
  | exitFail
  | badOutput
  | value (v : ℚ)
deriving DecidableEq

/-- The remote transport (ssh, subprocess capture and float parsing of the first
output line), abstracted as an oracle from host name and segment bounds to the
classified outcome. -/
abbrev Responder := String → ℤ → ℤ → RemoteResult

/-- The `host_segments` list of `distribute_across_hosts` (pi.py lines 142-148):
for `idx, host` in `enumerate(hosts)`, segment `idx` starts at `idx * chunk` and
ends at `start + chunk`, except the last which ends at `iterations`. -/
def hostSegments (iterations : ℤ) (hosts : List String) : List (String × ℤ × ℤ) :=
  hosts.enum.map fun p =>
    (p.2, (p.1 : ℤ) * evenChunk iterations (hosts.length : ℤ),
      if (p.1 : ℤ) < (hosts.length : ℤ) - 1 then
        (p.1 : ℤ) * evenChunk iterations (hosts.length : ℤ)
          + evenChunk iterations (hosts.length : ℤ)
      else iterations)

/-- The sequential collection loop of `distribute_across_hosts` (pi.py lines
150-179): one blocking remote call per host in list order, accumulating `total`;
the first failing host calls `sys.exit(1)` and nothing further runs. -/
def collectHosts (resp : Responder) : List (String × ℤ × ℤ) → ℚ → Except PiError ℚ
  | [], total => .ok total
  | (h, s, e) :: rest, total =>
    match resp h s e with
    | .exitFail => .error .remoteExit
    | .badOutput => .error .remoteParse
    | .value v => collectHosts resp rest (total + v)

/-- `distribute_across_hosts` (pi.py lines 137-181), parameterised by the remote
transport oracle. An empty host list raises `ZeroDivisionError` at
`chunk = iterations // n_hosts`. On success it returns the plain sum of the parsed
remote values, with no further scaling. -/
def distribute_across_hosts (iterations : ℤ) (hosts : List String) (resp : Responder) :
    Except PiError ℚ :=
  if hosts.length = 0 then .error .zeroDivision
  else collectHosts resp (hostSegments iterations hosts) 0

/-- Parsed command line of `main` (pi.py lines 184-201). `threads` and
`processes` have non-`None` integer defaults; every other option may be absent.
The hidden `--start` / `--end` worker flags are `startArg` / `endArg`
(`end` is reserved in Lean). -/
structure Args where
  iterations : Option ℤ
  threads : ℤ
  processes : ℤ
  withGil : Bool
  withThread : Bool
  withProcess : Bool
  pool : Option ℤ
  segments : Option ℤ
  segSize : Option ℤ
  hosts : Option String
  startArg : Option ℤ
  endArg : Option ℤ

/-- Python truthiness of an optional integer flag: `None` and `0` are falsy. -/
def optTruthy (o : Option ℤ) : Bool :=
  match o with
  | none => false
  | some n => n != 0

/-- Python truthiness of an optional string flag: `None` and `""` are falsy. -/
def strTruthy (o : Option String) : Bool :=
  match o with
  | none => false
  | some s => s != ""

/-- The two `parser.error` calls in `main`: line 212 (`--hosts` without a truthy
`--iterations`) and line 241 (no computation mode selected). `parser.error`
prints the message and exits with status 2, so the run never starts. -/
inductive ConfigError where
  | hostsNeedIterations
  | noModeSelected
deriving DecidableEq

/-- What a successful branch of `main` produces: worker mode prints the
already-scaled `π ≈` line of `run_local_segment` and returns (no error/time
lines); every other mode produces a result value (or dies in the backend). -/
inductive Outcome where
  | workerOut (v : ℚ)
  | runOut (v : Except PiError ℚ)

/-- Passing `args.iterations` into a backend: a missing `--iterations` is `None`
in Python, and the first arithmetic on it inside the backend raises `TypeError`. -/
def withIterations (it : Option ℤ) (f : ℤ → Except PiError ℚ) : Except PiError ℚ :=
  match it with
  | none => .error .noneType
  | some n => f n

/-- The manual-segment accumulation of `main` (pi.py lines 230-237): for `i` in
`range(segments)`, add `compute_segment(i * seg_size, i * seg_size + seg_size)`. -/
def manualSegTotal (s z : ℤ) : ℚ :=
  ((List.range s.toNat).map fun (i : ℕ) =>
    compute_segment ((i : ℤ) * z) ((i : ℤ) * z + z)).sum

/-- The branch structure of `main` (pi.py lines 205-241), parameterised by the
remote transport oracle. Branch order and truthiness tests mirror the source:
worker mode (`--start` and `--end` both present), then `--hosts`, `--with-gil`,
`--with-thread`, `--with-process`, `--pool`, manual segments
(`--segments and --seg-size`), plain `--iterations`, else `parser.error`. -/
def mainRun (a : Args) (resp : Responder) : Except ConfigError Outcome :=
  if a.startArg.isSome && a.endArg.isSome then
    .ok (.workerOut (run_local_segment (a.startArg.getD 0) (a.endArg.getD 0)))
  else if strTruthy a.hosts then
    if !optTruthy a.iterations then .error .hostsNeedIterations
    else .ok (.runOut (distribute_across_hosts (a.iterations.getD 0)
      ((a.hosts.getD "").splitOn ",") resp))
  else if a.withGil then
    .ok (.runOut (withIterations a.iterations fun n => run_gil_threads n a.threads))
  else if a.withThread then
    .ok (.runOut (withIterations a.iterations fun n =>
      run_producer_consumer_threads n a.threads))
  else if a.withProcess then
    .ok (.runOut (withIterations a.iterations fun n =>
      run_producer_consumer_processes n a.processes))
  else if optTruthy a.pool then
    .ok (.runOut (withIterations a.iterations fun n => run_pool n (a.pool.getD 0)))
  else if optTruthy a.segments && optTruthy a.segSize then
    .ok (.runOut (.ok (4 * manualSegTotal (a.segments.getD 0) (a.segSize.getD 0))))
  else if optTruthy a.iterations then
    .ok (.runOut (.ok (4 * compute_segment 0 (a.iterations.getD 0))))
  else .error .noModeSelected

/-- Boundary function for the even-split policy: `b i = i * chunk` for `i < threads`
and `b threads = iterations`, so that segment `i` is `[b i, b (i+1))`. -/
def bEven (I t : ℤ) (i : ℕ) : ℤ := if (i : ℤ) < t then (i : ℤ) * evenChunk I t else I

/-- Boundary function for the ceiling-chunk policy: `b i = min (i * chunk) iterations`,
so that segment `i` is `[b i, b (i+1))`. -/
def bCeil (I w : ℤ) (i : ℕ) : ℤ := min ((i : ℤ) * ceilChunk I w) I

lemma foldl_add_leibniz (l : List ℤ) : ∀ init : ℚ,
    l.foldl (fun total k => total + leibnizTerm k) init
      = init + (l.map leibnizTerm).sum := by
  induction l with
  | nil => intro init; simp
  | cons x xs ih =>
    intro init
    simp only [List.foldl_cons, List.map_cons, List.sum_cons, ih]
    ring

lemma compute_segment_eq_sum (s e : ℤ) :
    compute_segment s e = ((intRange s e).map leibnizTerm).sum := by
  rw [compute_segment, foldl_add_leibniz, zero_add]

lemma compute_segment_empty {s e : ℤ} (h : e ≤ s) : compute_segment s e = 0 := by
  have h0 : (e - s).toNat = 0 := by omega
  rw [compute_segment, intRange, h0]
  simp

lemma intRange_succ {s e : ℤ} (h : s ≤ e) :
    intRange s (e + 1) = intRange s e ++ [e] := by
  have h1 : (e + 1 - s).toNat = (e - s).toNat + 1 := by omega
  rw [intRange, h1, List.range_succ, List.map_append, intRange]
  congr 1
  simp only [List.map_cons, List.map_nil]
  have h2 : s + ((e - s).toNat : ℤ) = e := by omega
  rw [h2]

lemma compute_segment_succ {s e : ℤ} (h : s ≤ e) :
    compute_segment s (e + 1) = compute_segment s e + leibnizTerm e := by
  rw [compute_segment_eq_sum, compute_segment_eq_sum, intRange_succ h]
  simp

lemma compute_segment_add {s m e : ℤ} (h1 : s ≤ m) (h2 : m ≤ e) :
    compute_segment s m + compute_segment m e = compute_segment s e := by
  obtain ⟨n, rfl⟩ : ∃ n : ℕ, e = m + n := ⟨(e - m).toNat, by omega⟩
  clear h2
  induction n with
  | zero => simp [compute_segment_empty (le_refl m)]
  | succ n ih =>
    have hcast : m + ((n + 1 : ℕ) : ℤ) = (m + (n : ℤ)) + 1 := by push_cast; ring
    rw [hcast, compute_segment_succ (show s ≤ m + (n : ℤ) by omega),
      compute_segment_succ (show m ≤ m + (n : ℤ) by omega), ← add_assoc, ih]

lemma mono_chain (b : ℕ → ℤ) (t : ℕ) (h : ∀ i, i < t → b i ≤ b (i + 1)) :
    ∀ j, j ≤ t → ∀ i, i ≤ j → b i ≤ b j := by
  intro j
  induction j with
  | zero =>
    intro _ i hi
    have hi0 : i = 0 := by omega
    simp [hi0]
  | succ j ihj =>
    intro hjt i hij
    rcases (show i ≤ j ∨ i = j + 1 by omega) with hle | heq
    · exact le_trans (ihj (by omega) i hle) (h j (by omega))
    · simp [heq]

lemma countP_boundaries (b : ℕ → ℤ) (k : ℤ) :
    ∀ t : ℕ, (∀ i, i < t → b i ≤ b (i + 1)) →
      (((List.range t).map fun i => (b i, b (i + 1))).countP
          fun p => decide (p.1 ≤ k ∧ k < p.2))
        = if b 0 ≤ k ∧ k < b t then 1 else 0 := by
  intro t
  induction t with
  | zero =>
    intro _
    have h0 : ¬ (b 0 ≤ k ∧ k < b 0) := by omega
    simp [h0]
  | succ t ih =>
    intro h
    have hstep : ∀ i, i < t → b i ≤ b (i + 1) := fun i hi => h i (by omega)
    have h0t : b 0 ≤ b t := mono_chain b (t + 1) h t (by omega) 0 (by omega)
    have htt : b t ≤ b (t + 1) := h t (by omega)
    rw [List.range_succ, List.map_append, List.countP_append, ih hstep]
    simp only [List.map_cons, List.map_nil, List.countP_cons, List.countP_nil,
      decide_eq_true_eq]
    split_ifs <;> omega

lemma segSum_append (l1 l2 : List (ℤ × ℤ)) : segSum (l1 ++ l2) = segSum l1 + segSum l2 := by
  simp [segSum]

lemma segSum_boundaries (b : ℕ → ℤ) :
    ∀ t : ℕ, (∀ i, i < t → b i ≤ b (i + 1)) →
      segSum ((List.range t).map fun i => (b i, b (i + 1)))
        = compute_segment (b 0) (b t) := by
  intro t
  induction t with
  | zero =>
    intro _
    simp [segSum, compute_segment_empty (le_refl (b 0))]
  | succ t ih =>
    intro h
    have hstep : ∀ i, i < t → b i ≤ b (i + 1) := fun i hi => h i (by omega)
    have h0t : b 0 ≤ b t := mono_chain b (t + 1) h t (by omega) 0 (by omega)
    have htt : b t ≤ b (t + 1) := h t (by omega)
    rw [List.range_succ, List.map_append, segSum_append, ih hstep]
    have hone : segSum (List.map (fun i => (b i, b (i + 1))) [t])
        = compute_segment (b t) (b (t + 1)) := by
      simp [segSum]
    rw [hone]
    exact compute_segment_add h0t htt

lemma evenChunk_nonneg {I t : ℤ} (hI : 0 ≤ I) (ht : 0 ≤ t) : 0 ≤ evenChunk I t :=
  Int.fdiv_nonneg hI ht

lemma evenChunk_mul_le {I t : ℤ} (_hI : 0 ≤ I) (ht : 1 ≤ t) : t * evenChunk I t ≤ I := by
  rw [evenChunk, Int.fdiv_eq_ediv _ (show (0 : ℤ) ≤ t by omega)]
  calc t * (I / t) = I / t * t := by ring
    _ ≤ I := Int.ediv_mul_le I (show t ≠ 0 by omega)

lemma evenSplit_eq_boundaries (I t : ℤ) (ht : 1 ≤ t) :
    evenSplitSegments I t
      = (List.range t.toNat).map fun i => (bEven I t i, bEven I t (i + 1)) := by
  unfold evenSplitSegments
  apply List.map_congr_left
  intro i hi
  rw [List.mem_range] at hi
  have hi' : (i : ℤ) < t := by omega
  have hi1 : ((i + 1 : ℕ) : ℤ) = (i : ℤ) + 1 := by push_cast; ring
  simp only [bEven, hi1]
  rw [if_pos hi']
  by_cases hc : (i : ℤ) < t - 1
  · rw [if_pos hc, if_pos (show (i : ℤ) + 1 < t by omega)]
  · rw [if_neg hc, if_neg (show ¬ ((i : ℤ) + 1 < t) by omega)]

lemma bEven_step (I t : ℤ) (hI : 0 ≤ I) (ht : 1 ≤ t) :
    ∀ i : ℕ, i < t.toNat → bEven I t i ≤ bEven I t (i + 1) := by
  intro i hi
  have hc0 : 0 ≤ evenChunk I t := evenChunk_nonneg hI (by omega)
  have hmul : t * evenChunk I t ≤ I := evenChunk_mul_le hI ht
  have hi' : (i : ℤ) < t := by omega
  have hi1 : ((i + 1 : ℕ) : ℤ) = (i : ℤ) + 1 := by push_cast; ring
  simp only [bEven, hi1]
  rw [if_pos hi']
  by_cases hc : (i : ℤ) + 1 < t
  · rw [if_pos hc]
    exact mul_le_mul_of_nonneg_right (by omega) hc0
  · rw [if_neg hc]
    have h1 : (i : ℤ) * evenChunk I t ≤ (t - 1) * evenChunk I t :=
      mul_le_mul_of_nonneg_right (by omega) hc0
    have h2 : (t - 1) * evenChunk I t = t * evenChunk I t - evenChunk I t := by ring
    linarith

lemma bEven_zero (I t : ℤ) (ht : 1 ≤ t) : bEven I t 0 = 0 := by
  rw [bEven, if_pos (show ((0 : ℕ) : ℤ) < t by push_cast; omega)]
  push_cast
  ring

lemma bEven_top (I t : ℤ) : bEven I t t.toNat = I := by
  rw [bEven, if_neg (show ¬ ((t.toNat : ℤ) < t) by omega)]

lemma ceilChunk_pos (I w : ℤ) : 1 ≤ ceilChunk I w := le_max_left _ _

lemma ceilCount_mul_ge {I w : ℤ} (_hI : 1 ≤ I) :
    I ≤ ceilCount I w * ceilChunk I w := by
  have hc : 1 ≤ ceilChunk I w := ceilChunk_pos I w
  rw [ceilCount, Int.fdiv_eq_ediv _ (show (0 : ℤ) ≤ ceilChunk I w by omega)]
  have hlt := Int.lt_ediv_add_one_mul_self (I + ceilChunk I w - 1)
    (show (0 : ℤ) < ceilChunk I w by omega)
  have hexp : ((I + ceilChunk I w - 1) / ceilChunk I w + 1) * ceilChunk I w
      = (I + ceilChunk I w - 1) / ceilChunk I w * ceilChunk I w + ceilChunk I w := by
    ring
  linarith

lemma ceilCount_mul_le {I w : ℤ} (_hI : 1 ≤ I) :
    ceilCount I w * ceilChunk I w ≤ I + ceilChunk I w - 1 := by
  have hc : 1 ≤ ceilChunk I w := ceilChunk_pos I w
  rw [ceilCount, Int.fdiv_eq_ediv _ (show (0 : ℤ) ≤ ceilChunk I w by omega)]
  exact Int.ediv_mul_le _ (show ceilChunk I w ≠ 0 by omega)

lemma ceilCount_nonneg {I w : ℤ} (hI : 1 ≤ I) : 0 ≤ ceilCount I w := by
  have hc : 1 ≤ ceilChunk I w := ceilChunk_pos I w
  exact Int.fdiv_nonneg (by omega) (by omega)

lemma ceilSeg_start_le {I w : ℤ} (hI : 1 ≤ I) {i : ℕ}
    (hi : i < (ceilCount I w).toNat) : (i : ℤ) * ceilChunk I w ≤ I - 1 := by
  have hc : 1 ≤ ceilChunk I w := ceilChunk_pos I w
  have hmle : ceilCount I w * ceilChunk I w ≤ I + ceilChunk I w - 1 := ceilCount_mul_le hI
  have hi' : (i : ℤ) ≤ ceilCount I w - 1 := by omega
  have h1 : (i : ℤ) * ceilChunk I w ≤ (ceilCount I w - 1) * ceilChunk I w :=
    mul_le_mul_of_nonneg_right hi' (by omega)
  have h2 : (ceilCount I w - 1) * ceilChunk I w
      = ceilCount I w * ceilChunk I w - ceilChunk I w := by ring
  linarith

lemma ceilChunk_eq_boundaries (I w : ℤ) (hI : 1 ≤ I) :
    ceilChunkSegments I w
      = (List.range (ceilCount I w).toNat).map fun i => (bCeil I w i, bCeil I w (i + 1)) := by
  unfold ceilChunkSegments
  apply List.map_congr_left
  intro i hi
  rw [List.mem_range] at hi
  have hstart : (i : ℤ) * ceilChunk I w ≤ I - 1 := ceilSeg_start_le hI hi
  have hi1 : ((i + 1 : ℕ) : ℤ) = (i : ℤ) + 1 := by push_cast; ring
  simp only [bCeil, hi1, Prod.mk.injEq]
  exact ⟨(min_eq_left (by omega)).symm, trivial⟩

lemma bCeil_step (I w : ℤ) : ∀ i : ℕ, bCeil I w i ≤ bCeil I w (i + 1) := by
  intro i
  have hc : 1 ≤ ceilChunk I w := ceilChunk_pos I w
  have hi1 : ((i + 1 : ℕ) : ℤ) = (i : ℤ) + 1 := by push_cast; ring
  simp only [bCeil, hi1]
  exact min_le_min (mul_le_mul_of_nonneg_right (by omega) (by omega)) le_rfl

lemma bCeil_zero (I w : ℤ) (hI : 1 ≤ I) : bCeil I w 0 = 0 := by
  rw [bCeil]
  push_cast
  rw [zero_mul, min_eq_left (by omega)]

lemma bCeil_top (I w : ℤ) (hI : 1 ≤ I) : bCeil I w (ceilCount I w).toNat = I := by
  have hge : I ≤ ceilCount I w * ceilChunk I w := ceilCount_mul_ge hI
  have hnn : ((ceilCount I w).toNat : ℤ) = ceilCount I w := by
    have := ceilCount_nonneg (w := w) hI
    omega
  rw [bCeil, hnn, min_eq_right (by omega)]

lemma evenSplit_segSum (I t : ℤ) (hI : 1 ≤ I) (ht : 1 ≤ t) :
    segSum (evenSplitSegments I t) = compute_segment 0 I := by
  rw [evenSplit_eq_boundaries I t ht,
    segSum_boundaries (bEven I t) t.toNat (bEven_step I t (by omega) ht),
    bEven_zero I t ht, bEven_top I t]

lemma ceilChunk_segSum (I w : ℤ) (hI : 1 ≤ I) :
    segSum (ceilChunkSegments I w) = compute_segment 0 I := by
  rw [ceilChunk_eq_boundaries I w hI,
    segSum_boundaries (bCeil I w) (ceilCount I w).toNat (fun i _ => bCeil_step I w i),
    bCeil_zero I w hI, bCeil_top I w hI]

lemma run_gil_threads_eq (I t : ℤ) (hI : 1 ≤ I) (ht : 1 ≤ t) :
    run_gil_threads I t = .ok (4 * compute_segment 0 I) := by
  unfold run_gil_threads
  rw [if_neg (show ¬ t = 0 by omega), evenSplit_segSum I t hI ht]

/-- Claim C1: for every `iterations ≥ 1` and worker count `≥ 1`, the segment list
of either sizing policy (even-split of `run_gil_threads`, ceiling-chunk of
`run_producer_consumer_threads` / `run_pool`) covers each index of
`[0, iterations)` exactly once — counted with multiplicity, so there are no gaps,
no overlaps and no duplicated coverage — and covers nothing outside it. -/
theorem C1_partition_disjoint_union (I t w k : ℤ) (hI : 1 ≤ I) (ht : 1 ≤ t)
    (_hw : 1 ≤ w) :
    ((evenSplitSegments I t).countP fun p => decide (p.1 ≤ k ∧ k < p.2))
        = (if 0 ≤ k ∧ k < I then 1 else 0)
      ∧ ((ceilChunkSegments I w).countP fun p => decide (p.1 ≤ k ∧ k < p.2))
        = (if 0 ≤ k ∧ k < I then 1 else 0) := by
  constructor
  · rw [evenSplit_eq_boundaries I t ht,
      countP_boundaries (bEven I t) k t.toNat (bEven_step I t (by omega) ht),
      bEven_zero I t ht, bEven_top I t]
  · rw [ceilChunk_eq_boundaries I w hI,
      countP_boundaries (bCeil I w) k (ceilCount I w).toNat (fun i _ => bCeil_step I w i),
      bCeil_zero I w hI, bCeil_top I w hI]

/-- Witness for C1 at `iterations = 10`, `threads = 3`, `workers = 4`, `k = 7`. -/
theorem C1_partition_disjoint_union_witness :
    ((evenSplitSegments 10 3).countP fun p => decide (p.1 ≤ 7 ∧ 7 < p.2))
        = (if 0 ≤ (7 : ℤ) ∧ (7 : ℤ) < 10 then 1 else 0)
      ∧ ((ceilChunkSegments 10 4).countP fun p => decide (p.1 ≤ 7 ∧ 7 < p.2))
        = (if 0 ≤ (7 : ℤ) ∧ (7 : ℤ) < 10 then 1 else 0) :=
  C1_partition_disjoint_union 10 3 4 7 (by decide) (by decide) (by decide)

/-- Claim C2: under exact arithmetic, summing `compute_segment` over the segments
of either sizing policy reproduces `compute_segment 0 iterations` exactly, so the
Thread Pool (GIL), Producer-Consumer (threads and processes) and Pool backends all
return exactly `4 * compute_segment 0 iterations` for the same `iterations` and
any worker counts `≥ 1` (in float64 the same holds up to accumulation-order
rounding only). -/
theorem C2_partition_sum_invariant (I t w p q : ℤ)
    (hI : 1 ≤ I) (ht : 1 ≤ t) (hw : 1 ≤ w) (hp : 1 ≤ p) (hq : 1 ≤ q) :
    segSum (evenSplitSegments I t) = compute_segment 0 I
      ∧ segSum (ceilChunkSegments I w) = compute_segment 0 I
      ∧ run_gil_threads I t = .ok (4 * compute_segment 0 I)
      ∧ run_producer_consumer_threads I w = .ok (4 * compute_segment 0 I)
      ∧ run_producer_consumer_processes I p = .ok (4 * compute_segment 0 I)
      ∧ run_pool I q = .ok (4 * compute_segment 0 I) := by
  refine ⟨evenSplit_segSum I t hI ht, ceilChunk_segSum I w hI,
    run_gil_threads_eq I t hI ht, ?_, ?_, ?_⟩
  · unfold run_producer_consumer_threads
    rw [if_neg (show ¬ w = 0 by omega), ceilChunk_segSum I w hI]
  · unfold run_producer_consumer_processes
    rw [if_neg (show ¬ p = 0 by omega), ceilChunk_segSum I p hI]
  · unfold run_pool
    rw [if_neg (show ¬ q = 0 by omega), if_neg (show ¬ q < 0 by omega),
      ceilChunk_segSum I q hI]

/-- Witness for C2 at `iterations = 10` and worker counts 3, 4, 2, 5. -/
theorem C2_partition_sum_invariant_witness :
    segSum (evenSplitSegments 10 3) = compute_segment 0 10
      ∧ segSum (ceilChunkSegments 10 4) = compute_segment 0 10
      ∧ run_gil_threads 10 3 = .ok (4 * compute_segment 0 10)
      ∧ run_producer_consumer_threads 10 4 = .ok (4 * compute_segment 0 10)
      ∧ run_producer_consumer_processes 10 2 = .ok (4 * compute_segment 0 10)
      ∧ run_pool 10 5 = .ok (4 * compute_segment 0 10) :=
  C2_partition_sum_invariant 10 3 4 2 5 (by decide) (by decide) (by decide)
    (by decide) (by decide)

/-- Claim C3 is false on the code: with `workers = 0` the even-split backend
crashes with exactly the division error the claim rules out, and with a negative
worker count it proceeds (empty segment list, result `4 * sum([]) = 0.0`); no
InvalidArgument-style validation exists on either path. -/
theorem C3_invalid_workers_counterexample :
    run_gil_threads 10 0 = .error .zeroDivision ∧ run_gil_threads 10 (-3) = .ok 0 := by
  constructor
  · rfl
  · unfold run_gil_threads
    rw [if_neg (show ¬ (-3 : ℤ) = 0 by decide)]
    have hempty : evenSplitSegments 10 (-3) = [] := rfl
    rw [hempty]
    simp [segSum]

/-- Claim C3 amended: invoking the even-split backend with `workers = 0` fails
with a `ZeroDivisionError` at the chunk computation (before any worker starts),
and with a negative worker count it is not rejected at all: the segment list is
empty and the backend proceeds, returning 0.0. -/
theorem C3_invalid_workers_behavior (I t : ℤ) (ht : t < 0) :
    run_gil_threads I 0 = .error .zeroDivision ∧ run_gil_threads I t = .ok 0 := by
  constructor
  · rfl
  · unfold run_gil_threads
    rw [if_neg (show ¬ t = 0 by omega)]
    have hempty : evenSplitSegments I t = [] := by
      unfold evenSplitSegments
      rw [show t.toNat = 0 by omega]
      rfl
    rw [hempty]
    simp [segSum]

/-- Witness for the amended C3 at `iterations = 7`, `workers = -3`. -/
theorem C3_invalid_workers_behavior_witness :
    run_gil_threads 7 0 = .error .zeroDivision ∧ run_gil_threads 7 (-3) = .ok 0 :=
  C3_invalid_workers_behavior 7 (-3) (by decide)

/-- Claim C9: `compute_segment` returns exactly 0 on every empty range
(`end ≤ start`), and when the worker count exceeds `iterations` the empty
even-split segments contribute nothing: the backend still returns
`4 * compute_segment 0 iterations`. -/
theorem C9_empty_segment_zero (s e I t : ℤ) (he : e ≤ s) (hI : 1 ≤ I) (ht : I < t) :
    compute_segment s e = 0 ∧ run_gil_threads I t = .ok (4 * compute_segment 0 I) :=
  ⟨compute_segment_empty he, run_gil_threads_eq I t hI (by omega)⟩

/-- Witness for C9 at `start = 5`, `end = 2` and `iterations = 3` split over 8
workers. -/
theorem C9_empty_segment_zero_witness :
    compute_segment 5 2 = 0 ∧ run_gil_threads 3 8 = .ok (4 * compute_segment 0 3) :=
  C9_empty_segment_zero 5 2 3 8 (by decide) (by decide) (by decide)

lemma neg_one_zpow_toNat {k : ℤ} (hk : 0 ≤ k) : (-1 : ℚ) ^ k = (-1 : ℚ) ^ k.toNat := by
  have h := zpow_natCast (-1 : ℚ) k.toNat
  rw [Int.toNat_of_nonneg hk] at h
  exact h

lemma sum_list_range (f : ℕ → ℚ) :
    ∀ n : ℕ, ((List.range n).map f).sum = ∑ j in Finset.range n, f j := by
  intro n
  induction n with
  | zero => simp
  | succ n ih =>
    rw [List.range_succ, List.map_append, List.sum_append, ih, Finset.sum_range_succ]
    simp

/-- Claim C4: for `0 ≤ start ≤ end`, `compute_segment start end` is the
alternating sum of `(-1)^k / (2k + 1)` for `k` from `start` to `end - 1`
(accumulated in ascending `k`, which its definition mirrors), and
`4 * compute_segment 0 1` is exactly 4. -/
theorem C4_evaluator_closed_form (s e : ℤ) (h0 : 0 ≤ s) (_hse : s ≤ e) :
    compute_segment s e
        = ∑ j in Finset.range (e - s).toNat,
            (-1 : ℚ) ^ (s + (j : ℤ)).toNat / (2 * ((s : ℚ) + (j : ℚ)) + 1)
      ∧ 4 * compute_segment 0 1 = 4 := by
  constructor
  · rw [compute_segment_eq_sum, intRange, List.map_map, sum_list_range]
    apply Finset.sum_congr rfl
    intro j _
    simp only [Function.comp_apply, leibnizTerm]
    have hk : (0 : ℤ) ≤ s + (j : ℤ) := by omega
    rw [neg_one_zpow_toNat hk]
    congr 1
    push_cast
    ring
  · have h1 : compute_segment 0 (0 + 1) = compute_segment 0 0 + leibnizTerm 0 :=
      compute_segment_succ le_rfl
    rw [zero_add] at h1
    rw [h1, compute_segment_empty le_rfl, leibnizTerm]
    norm_num

/-- Witness for C4 at `start = 2`, `end = 5`. -/
theorem C4_evaluator_closed_form_witness :
    compute_segment 2 5
        = ∑ j in Finset.range ((5 : ℤ) - 2).toNat,
            (-1 : ℚ) ^ ((2 : ℤ) + (j : ℤ)).toNat / (2 * ((2 : ℚ) + (j : ℚ)) + 1)
      ∧ 4 * compute_segment 0 1 = 4 :=
  C4_evaluator_closed_form 2 5 (by decide) (by decide)

lemma sum_map_mul_four {α : Type} (g : α → ℚ) (l : List α) :
    (l.map fun x => 4 * g x).sum = 4 * (l.map g).sum := by
  induction l with
  | nil => simp
  | cons x xs ih =>
    simp only [List.map_cons, List.sum_cons, ih]
    ring

lemma collectHosts_values (f : ℤ → ℤ → ℚ) :
    ∀ (segs : List (String × ℤ × ℤ)) (total : ℚ),
      collectHosts (fun _ s e => .value (f s e)) segs total
        = .ok (total + (segs.map fun x => f x.2.1 x.2.2).sum) := by
  intro segs
  induction segs with
  | nil => intro total; simp [collectHosts]
  | cons x rest ih =>
    intro total
    obtain ⟨h, s, e⟩ := x
    simp only [collectHosts, ih, List.map_cons, List.sum_cons]
    congr 1
    ring

lemma collectHosts_fail (resp : Responder) :
    ∀ (segs : List (String × ℤ × ℤ)) (total : ℚ),
      (∃ x ∈ segs, resp x.1 x.2.1 x.2.2 = .exitFail ∨ resp x.1 x.2.1 x.2.2 = .badOutput) →
      ∃ err, collectHosts resp segs total = .error err := by
  intro segs
  induction segs with
  | nil =>
    intro total hex
    simp at hex
  | cons x rest ih =>
    intro total hex
    obtain ⟨hd, s, e⟩ := x
    rcases hex with ⟨y, hy, hfail⟩
    rw [List.mem_cons] at hy
    simp only [collectHosts]
    rcases hy with rfl | hmem
    · rcases hfail with hf | hf <;> rw [hf] <;> exact ⟨_, rfl⟩
    · cases hresp : resp hd s e with
      | exitFail => exact ⟨.remoteExit, rfl⟩
      | badOutput => exact ⟨.remoteParse, rfl⟩
      | value v => exact ih (total + v) ⟨y, hmem, hfail⟩

/-- Claim C5: the four local backends return `4 ×` the sum of their unscaled
partials; worker mode prints a partial already scaled by 4
(`run_local_segment`); `distribute_across_hosts` returns the plain sum of the
parsed remote values with no further scaling — so when every host faithfully
runs the worker protocol on its assigned segment, the remote result is exactly
`4 × Σ compute_segment` over the host segments. -/
theorem C5_scaling_conventions (I t a b : ℤ) (hosts : List String)
    (ht : 1 ≤ t) (hne : hosts ≠ []) :
    run_gil_threads I t = .ok (4 * segSum (evenSplitSegments I t))
      ∧ run_producer_consumer_threads I t = .ok (4 * segSum (ceilChunkSegments I t))
      ∧ run_producer_consumer_processes I t = .ok (4 * segSum (ceilChunkSegments I t))
      ∧ run_pool I t = .ok (4 * segSum (ceilChunkSegments I t))
      ∧ run_local_segment a b = 4 * compute_segment a b
      ∧ distribute_across_hosts I hosts (fun _ u v => .value (run_local_segment u v))
          = .ok (4 * segSum ((hostSegments I hosts).map fun x => x.2)) := by
  refine ⟨?_, ?_, ?_, ?_, rfl, ?_⟩
  · unfold run_gil_threads
    rw [if_neg (show ¬ t = 0 by omega)]
  · unfold run_producer_consumer_threads
    rw [if_neg (show ¬ t = 0 by omega)]
  · unfold run_producer_consumer_processes
    rw [if_neg (show ¬ t = 0 by omega)]
  · unfold run_pool
    rw [if_neg (show ¬ t = 0 by omega), if_neg (show ¬ t < 0 by omega)]
  · unfold distribute_across_hosts
    rw [if_neg (show ¬ hosts.length = 0 by simpa using hne)]
    rw [collectHosts_values (fun u v => run_local_segment u v) (hostSegments I hosts) 0]
    simp only [run_local_segment, zero_add]
    rw [sum_map_mul_four (fun x => compute_segment x.2.1 x.2.2) (hostSegments I hosts)]
    rw [segSum, List.map_map]
    rfl

/-- Witness for C5 at `iterations = 10`, worker count 3, segment `[2, 6)` and two
hosts. -/
theorem C5_scaling_conventions_witness :
    run_gil_threads 10 3 = .ok (4 * segSum (evenSplitSegments 10 3))
      ∧ run_producer_consumer_threads 10 3 = .ok (4 * segSum (ceilChunkSegments 10 3))
      ∧ run_producer_consumer_processes 10 3 = .ok (4 * segSum (ceilChunkSegments 10 3))
      ∧ run_pool 10 3 = .ok (4 * segSum (ceilChunkSegments 10 3))
      ∧ run_local_segment 2 6 = 4 * compute_segment 2 6
      ∧ distribute_across_hosts 10 ["h1", "h2"]
            (fun _ u v => .value (run_local_segment u v))
          = .ok (4 * segSum ((hostSegments 10 ["h1", "h2"]).map fun x => x.2)) :=
  C5_scaling_conventions 10 3 2 6 ["h1", "h2"] (by decide) (by decide)

/-- Claim C6: `distribute_across_hosts` partitions `[0, iterations)` into exactly
`len(hosts)` even-split segments, one per host in input order (the host components
are the input list, the range components are exactly the even-split segment list
for `len(hosts)` workers, so the remainder goes to the last segment); with 2
hosts and `iterations = 1000` the segments are `[0, 500)` and `[500, 1000)`. -/
theorem C6_host_segments_even_split (I : ℤ) (hosts : List String) (_hne : hosts ≠ []) :
    (hostSegments I hosts).map (fun x => x.1) = hosts
      ∧ (hostSegments I hosts).map (fun x => x.2)
          = evenSplitSegments I (hosts.length : ℤ)
      ∧ hostSegments 1000 ["h1", "h2"] = [("h1", 0, 500), ("h2", 500, 1000)] := by
  refine ⟨?_, ?_, by rfl⟩
  · rw [hostSegments, List.map_map]
    exact List.enum_map_snd hosts
  · apply List.ext_getElem
    · simp [hostSegments, evenSplitSegments]
    · intro i h1 h2
      simp only [hostSegments, evenSplitSegments, List.getElem_map, List.getElem_enum,
        List.getElem_range, Prod.mk.injEq]
      refine ⟨trivial, ?_⟩
      split_ifs
      · ring
      · rfl

/-- Witness for C6 with one host and `iterations = 7`. -/
theorem C6_host_segments_even_split_witness :
    (hostSegments 7 ["solo"]).map (fun x => x.1) = ["solo"]
      ∧ (hostSegments 7 ["solo"]).map (fun x => x.2)
          = evenSplitSegments 7 (([("solo" : String)].length : ℕ) : ℤ)
      ∧ hostSegments 1000 ["h1", "h2"] = [("h1", 0, 500), ("h2", 500, 1000)] :=
  C6_host_segments_even_split 7 ["solo"] (by decide)

/-- Claim C7: in the remote backend, if any host's invocation exits with non-zero
status or yields unparsable output, the whole run aborts with an error: no value
is ever produced, so no partial aggregation survives and nothing is retried. -/
theorem C7_remote_failure_aborts (I : ℤ) (hosts : List String) (resp : Responder)
    (hfail : ∃ x ∈ hostSegments I hosts,
      resp x.1 x.2.1 x.2.2 = .exitFail ∨ resp x.1 x.2.1 x.2.2 = .badOutput) :
    (∃ err, distribute_across_hosts I hosts resp = .error err)
      ∧ ∀ v : ℚ, distribute_across_hosts I hosts resp ≠ .ok v := by
  have hne : ¬ hosts.length = 0 := by
    intro hlen
    have hhe : hosts = [] := List.length_eq_zero.mp hlen
    rw [hhe] at hfail
    simp [hostSegments] at hfail
  have hmain : ∃ err, distribute_across_hosts I hosts resp = .error err := by
    unfold distribute_across_hosts
    rw [if_neg hne]
    exact collectHosts_fail resp (hostSegments I hosts) 0 hfail
  refine ⟨hmain, ?_⟩
  intro v hv
  obtain ⟨err, herr⟩ := hmain
  rw [hv] at herr
  exact Except.noConfusion herr

/-- Witness for C7: two hosts at `iterations = 1000`, the second of which exits
with status 1. -/
theorem C7_remote_failure_aborts_witness :
    (∃ err, distribute_across_hosts 1000 ["h1", "h2"]
        (fun h _ _ => if h == "h2" then .exitFail else .value 0) = .error err)
      ∧ ∀ v : ℚ, distribute_across_hosts 1000 ["h1", "h2"]
          (fun h _ _ => if h == "h2" then .exitFail else .value 0) ≠ .ok v :=
  C7_remote_failure_aborts 1000 ["h1", "h2"]
    (fun h _ _ => if h == "h2" then .exitFail else .value 0) (by decide)

/-- Claim C8: `main` raises a configuration error, before any computation starts,
both when no mode flag is truthy (`parser.error("No computation mode selected")`)
and when `--hosts` is given without a truthy `--iterations`
(`parser.error` demanding `-i`). -/
theorem C8_configuration_errors (a : Args) (resp : Responder) :
    ((a.startArg.isSome && a.endArg.isSome) = false → strTruthy a.hosts = true →
        optTruthy a.iterations = false →
        mainRun a resp = .error .hostsNeedIterations)
      ∧ ((a.startArg.isSome && a.endArg.isSome) = false → strTruthy a.hosts = false →
        a.withGil = false → a.withThread = false → a.withProcess = false →
        optTruthy a.pool = false →
        (optTruthy a.segments && optTruthy a.segSize) = false →
        optTruthy a.iterations = false →
        mainRun a resp = .error .noModeSelected) := by
  constructor
  · intro h1 h2 h3
    simp [mainRun, h1, h2, h3]
  · intro h1 h2 h3 h4 h5 h6 h7 h8
    simp [mainRun, h1, h2, h3, h4, h5, h6, h7, h8]

/-- Witness for C8: one invocation with `--hosts a,b` and no `--iterations`, and
one with no flags at all. -/
theorem C8_configuration_errors_witness :
    mainRun ⟨none, 4, 2, false, false, false, none, none, none, some "a,b", none, none⟩
        (fun _ _ _ => .value 0) = .error .hostsNeedIterations
      ∧ mainRun ⟨none, 4, 2, false, false, false, none, none, none, none, none, none⟩
        (fun _ _ _ => .value 0) = .error .noModeSelected :=
  ⟨(C8_configuration_errors
      ⟨none, 4, 2, false, false, false, none, none, none, some "a,b", none, none⟩
      (fun _ _ _ => .value 0)).1 (by decide) (by decide) (by decide),
    (C8_configuration_errors
      ⟨none, 4, 2, false, false, false, none, none, none, none, none, none⟩
      (fun _ _ _ => .value 0)).2 (by decide) (by decide) (by decide) (by decide)
      (by decide) (by decide) (by decide) (by decide)⟩

/-- Claim C10: in manual segment mode (`--segments s` and `--seg-size z`, both
positive, with no earlier branch taken), `main` computes
`4 * Σ_{i<s} compute_segment (i·z) (i·z + z)`, whose covered range is exactly
`[0, s·z)`; the value is determined solely by the two segment flags and is
independent of whatever `--iterations` value is supplied (the `iterations` field
of `a` is unconstrained). -/
theorem C10_manual_segments (a : Args) (resp : Responder) (s z : ℤ)
    (hworker : (a.startArg.isSome && a.endArg.isSome) = false)
    (hhosts : strTruthy a.hosts = false)
    (hgil : a.withGil = false) (hth : a.withThread = false)
    (hpr : a.withProcess = false) (hpool : optTruthy a.pool = false)
    (hs : a.segments = some s) (hz : a.segSize = some z)
    (hspos : 0 < s) (hzpos : 0 < z) :
    mainRun a resp = .ok (.runOut (.ok (4 * compute_segment 0 (s * z))))
      ∧ manualSegTotal s z = compute_segment 0 (s * z) := by
  have hstep : ∀ i : ℕ, i < s.toNat →
      (fun i : ℕ => (i : ℤ) * z) i ≤ (fun i : ℕ => (i : ℤ) * z) (i + 1) := by
    intro i _
    simp only
    have hc : ((i + 1 : ℕ) : ℤ) = (i : ℤ) + 1 := by push_cast; ring
    rw [hc]
    exact mul_le_mul_of_nonneg_right (by omega) (by omega)
  have hb : segSum ((List.range s.toNat).map fun (i : ℕ) =>
        ((i : ℤ) * z, ((i + 1 : ℕ) : ℤ) * z))
      = compute_segment (((0 : ℕ) : ℤ) * z) ((s.toNat : ℤ) * z) :=
    segSum_boundaries (fun i : ℕ => (i : ℤ) * z) s.toNat hstep
  have hman : manualSegTotal s z = compute_segment 0 (s * z) := by
    rw [manualSegTotal]
    have hlist : ((List.range s.toNat).map fun (i : ℕ) =>
          compute_segment ((i : ℤ) * z) ((i : ℤ) * z + z))
        = ((List.range s.toNat).map fun (i : ℕ) =>
            ((i : ℤ) * z, ((i + 1 : ℕ) : ℤ) * z)).map
            fun p => compute_segment p.1 p.2 := by
      rw [List.map_map]
      apply List.map_congr_left
      intro i _
      simp only [Function.comp_apply]
      congr 1
      push_cast
      ring
    rw [hlist]
    rw [segSum] at hb
    rw [hb]
    congr 1
    · push_cast
      ring
    · rw [Int.toNat_of_nonneg (by omega)]
  have hst : optTruthy (some s) = true := by
    simp only [optTruthy, bne_iff_ne, ne_eq]
    omega
  have hzt : optTruthy (some z) = true := by
    simp only [optTruthy, bne_iff_ne, ne_eq]
    omega
  refine ⟨?_, hman⟩
  simp [mainRun, hworker, hhosts, hgil, hth, hpr, hpool, hs, hz, hst, hzt, hman]

/-- Witness for C10: `--segments 3 --seg-size 4` with `--iterations 999` also
supplied, showing the iterations value is ignored. -/
theorem C10_manual_segments_witness :
    mainRun ⟨some 999, 4, 2, false, false, false, none, some 3, some 4, none,
        none, none⟩ (fun _ _ _ => .value 0)
        = .ok (.runOut (.ok (4 * compute_segment 0 (3 * 4))))
      ∧ manualSegTotal 3 4 = compute_segment 0 (3 * 4) :=
  C10_manual_segments
    ⟨some 999, 4, 2, false, false, false, none, some 3, some 4, none, none, none⟩
    (fun _ _ _ => .value 0) 3 4 (by decide) (by decide) (by decide) (by decide)
    (by decide) (by decide) rfl rfl (by decide) (by decide)
